import Mathlib

/-!
# A verification development for the `html` package (`html_node.go`)

The package renders a small tree of markup nodes to text.  This file embeds
its functions as Lean definitions and proves properties of them.

Modelling conventions.

* A Go `string` is a Lean `String`.  Go compares strings byte by byte; on
  UTF-8 text this is the lexicographic order of the code points, which is what
  `stringLess` computes and what `<` on `String` means.
* A Go `error` is an `Option String`: `none` is `nil`, `some msg` is the error
  made by `fmt.Errorf(msg)`.
* A Go function returning `(T, error)` returns a pair, so that the value handed
  back next to an error stays visible.
* A Go `map[string]string` is the list of its key/value pairs in the order in
  which one `range` over it enumerates them; the nil map and the empty map are
  both `[]` (the code only takes `len`, ranges and indexes, none of which tells
  them apart).  Keys of a map are unique, which theorems state as a hypothesis
  `NodupKeys` where they need it.
* The interface `HTMLNode` has the two implementations of the package,
  `LeafNode` and `ParentNode`, and is embedded as the sum of the two.
-/

namespace Html

/-! ## Go runtime and library pieces used by the package -/

/-- Go `error`: `none` is `nil`. -/
abbrev Error := Option String

/-- The call `fmt.Errorf(msg)` with a message that has no verbs. -/
def Errorf (msg : String) : Error := some msg

/-- Go `map[string]string`, as its pairs in iteration order. -/
abbrev GoMap := List (String × String)

/-- Keys of a map are pairwise different. -/
def NodupKeys (m : GoMap) : Prop := (m.map Prod.fst).Nodup

instance (m : GoMap) : Decidable (NodupKeys m) := by
  unfold NodupKeys; infer_instance

/-- The index expression `m[k]`: the value stored under `k`, or the empty
string (the zero value) when the key is absent. -/
def GoMap.index : GoMap → String → String
  | [], _ => ""
  | (k', v) :: m, k => if k' = k then v else GoMap.index m k

/-- Lexicographic comparison of two character sequences. -/
def charsLess : List Char → List Char → Bool
  | _, [] => false
  | [], _ :: _ => true
  | a :: as, b :: bs =>
    if a.toNat < b.toNat then true
    else if b.toNat < a.toNat then false
    else charsLess as bs

/-- Go `a < b` on strings. -/
def stringLess (a b : String) : Bool := charsLess a.data b.data

/-- The call `sort.Strings(keys)`: the keys in ascending order.  The result of
sorting does not depend on the algorithm, since equal strings cannot be told
apart; insertion sort stands for the library routine. -/
def sortStrings (keys : List String) : List String :=
  keys.insertionSort (fun a b => stringLess b a = false)

/-- Go `strings.Builder`: the text written so far. -/
structure Builder where
  buf : String
deriving DecidableEq, Repr

/-- The method `(*strings.Builder).WriteString`: appends and returns a nil
error (the byte count, which every caller discards, is left out). -/
def Builder.WriteString (b : Builder) (s : String) : Builder × Error :=
  (⟨b.buf ++ s⟩, none)

/-- The method `(*strings.Builder).String`. -/
def Builder.String (b : Builder) : String := b.buf

/-! ## `Props` -/

/-- The struct `Props`. -/
structure Props where
  props : GoMap
deriving DecidableEq, Repr

/-- The call to `fmt.Sprintf` in `PropsToHTML`: a space, the key, an equals
sign and the value between double quotes. -/
def sprintfProp (k v : String) : String := " " ++ k ++ "=\"" ++ v ++ "\""

/-- The loop `for _, k := range keys` of `PropsToHTML`; an error of
`WriteString` ends it. -/
def PropsToHTML.loop (m : GoMap) : List String → Builder → Builder × Error
  | [], props => (props, none)
  | k :: keys, props =>
    match props.WriteString (sprintfProp k (m.index k)) with
    | (props', none) => PropsToHTML.loop m keys props'
    | (props', some err) => (props', some err)

/-- The method `Props.PropsToHTML`. -/
def Props.PropsToHTML (p : Props) : String × Error :=
  if p.props.length = 0 then ("", none)
  else
    let keys := p.props.map Prod.fst
    let keys := sortStrings keys
    match PropsToHTML.loop p.props keys ⟨""⟩ with
    | (_, some err) => ("", some err)
    | (props, none) => (props.String, none)

/-! ## Void tags -/

/-- The table `VOID_TAGS`. -/
def VOID_TAGS : List String :=
  ["area", "base", "br", "col", "command", "embed", "hr", "img", "input", "keygen", "link",
   "meta", "param", "source", "track", "wbr"]

/-- The loop of `voidTag` over a table. -/
def voidTag.loop (tag : String) : List String → Bool
  | [] => false
  | t :: ts => if tag = t then true else voidTag.loop tag ts

/-- The function `voidTag`. -/
def voidTag (tag : String) : Bool := voidTag.loop tag VOID_TAGS

/-! ## Nodes -/

/-- The struct `LeafNode`. -/
structure LeafNode where
  tag : String
  value : String
  props : Props
deriving DecidableEq, Repr

mutual
/-- The interface `HTMLNode`, as the sum of its two implementations. -/
inductive HTMLNode where
  | leaf (l : LeafNode)
  | parent (p : ParentNode)
/-- The struct `ParentNode` with fields `tag`, `children`, `props`. -/
inductive ParentNode where
  | mk (tag : String) (children : List HTMLNode) (props : Props)
end

/-- Field `tag` of a `ParentNode`. -/
def ParentNode.tag : ParentNode → String
  | .mk tag _ _ => tag

/-- Field `children` of a `ParentNode`. -/
def ParentNode.children : ParentNode → List HTMLNode
  | .mk _ children _ => children

/-- Field `props` of a `ParentNode`. -/
def ParentNode.props : ParentNode → Props
  | .mk _ _ props => props

/-- The zero value of `LeafNode`. -/
def LeafNode.zero : LeafNode := ⟨"", "", ⟨[]⟩⟩

/-- The zero value of `ParentNode`. -/
def ParentNode.zero : ParentNode := .mk "" [] ⟨[]⟩

/-- The function `NewLeafNode`. -/
def NewLeafNode (tag value : String) (props : GoMap) : LeafNode × Error :=
  if value = "" ∧ voidTag tag = false then
    (LeafNode.zero, Errorf "leaf node needs a value unless its self closing")
  else if voidTag tag = true ∧ value ≠ "" then
    (LeafNode.zero, Errorf "self closing tags shouldn't contain content")
  else
    ({ tag := tag, value := value, props := { props := props } }, none)

/-- The method `LeafNode.toHtml`. -/
def LeafNode.toHtml (l : LeafNode) : String × Error :=
  let value := l.value
  if value = "" ∧ voidTag l.tag = false then
    ("", Errorf "leaf node missing value")
  else
    let tag := l.tag
    if tag = "" then (value, none)
    else
      match l.props.PropsToHTML with
      | (_, some err) => ("", some err)
      | (props, none) =>
        if voidTag tag = true then ("<" ++ tag ++ props ++ ">" ++ value, none)
        else ("<" ++ tag ++ props ++ ">" ++ value ++ "</" ++ tag ++ ">", none)

/-- The function `NewParentNode`. -/
def NewParentNode (tag : String) (children : List HTMLNode) (props : GoMap) :
    ParentNode × Error :=
  if tag = "" ∨ voidTag tag = true then
    (ParentNode.zero, Errorf "parent must containg a tag that is not self closing")
  else if children.length = 0 then
    (ParentNode.zero, Errorf "parent must contain children")
  else
    (.mk tag children { props := props }, none)

mutual
/-- The function `ToHtml`: dispatch on the implementation of the interface. -/
def ToHtml : HTMLNode → String × Error
  | .leaf l => l.toHtml
  | .parent p => ParentNode.toHtml p
/-- The method `ParentNode.toHtml`. -/
def ParentNode.toHtml : ParentNode → String × Error
  | .mk tag children props =>
    if tag = "" then ("", Errorf "parent node missing tag")
    else if voidTag tag = true then ("", Errorf "parent node can't have a void tag")
    else if children.length = 0 then ("", Errorf "parent node missing children")
    else
      match props.PropsToHTML with
      | (_, some err) => ("", some err)
      | (ps, none) =>
        match Builder.WriteString ⟨""⟩ ("<" ++ tag ++ ps ++ ">") with
        | (_, some err) => ("", some err)
        | (html, none) =>
          match ParentNode.toHtml.loop children html with
          | (_, some err) => ("", some err)
          | (html, none) =>
            match html.WriteString ("</" ++ tag ++ ">") with
            | (_, some err) => ("", some err)
            | (html, none) => (html.String, none)
/-- The loop `for _, c := range children` of `ParentNode.toHtml`; an error of a
child or of `WriteString` ends it. -/
def ParentNode.toHtml.loop : List HTMLNode → Builder → Builder × Error
  | [], html => (html, none)
  | c :: cs, html =>
    match ToHtml c with
    | (_, some err) => (html, some err)
    | (cHtml, none) =>
      match html.WriteString cHtml with
      | (html', some err) => (html', some err)
      | (html', none) => ParentNode.toHtml.loop cs html'
end

/-! ## Descriptions -/

/-- The verb `%s` of `fmt` applied to a `map[string]string`: the word `map`,
then between square brackets the entries as key, colon, value, separated by
single spaces; `fmt` prints the entries of a map in ascending key order. -/
def sprintMap (m : GoMap) : String :=
  "map[" ++ " ".intercalate ((sortStrings (m.map Prod.fst)).map fun k => k ++ ":" ++ m.index k)
    ++ "]"

/-- The method `LeafNode.String`. -/
def LeafNode.String (l : LeafNode) : String :=
  "LeafNode(" ++ l.tag ++ ", " ++ l.value ++ ", " ++ sprintMap l.props.props ++ ")"

mutual
/-- The method `String` of the interface `HTMLNode`: dispatch on the
implementation. -/
def HTMLNode.String : HTMLNode → String
  | .leaf l => l.String
  | .parent p => ParentNode.String p
/-- The method `ParentNode.String`. -/
def ParentNode.String : ParentNode → String
  | .mk tag children props =>
    "ParentNode(" ++ tag ++ ", " ++ ("[" ++ " ".intercalate (sprintNodes children) ++ "]")
      ++ ", " ++ sprintMap props.props ++ ")"
/-- The verb `%s` of `fmt` applied to the elements of a slice of `HTMLNode`:
each element is printed by its method `String`. -/
def sprintNodes : List HTMLNode → List String
  | [] => []
  | c :: cs => c.String :: sprintNodes cs
end

/-! ## Predicates used to state properties -/

/-- A tree every node of which was returned without error by `NewLeafNode` or
`NewParentNode`, the children of each parent being such trees themselves. -/
inductive Built : HTMLNode → Prop where
  | leaf (tag value : String) (props : GoMap) (l : LeafNode) :
      NewLeafNode tag value props = (l, none) → Built (.leaf l)
  | parent (tag : String) (children : List HTMLNode) (props : GoMap) (p : ParentNode) :
      (∀ c, c ∈ children → Built c) → NewParentNode tag children props = (p, none) →
      Built (.parent p)

/-- The descendant in which the failure of a node arises: `FailsAt n d` holds
when `d` is `n` itself, or when `n` is a parent with a non-empty, non-void tag
whose first child that fails to render, `c`, has `FailsAt c d`. -/
inductive FailsAt : HTMLNode → HTMLNode → Prop where
  | self (n : HTMLNode) : FailsAt n n
  | child (tag : String) (pre : List HTMLNode) (c : HTMLNode) (post : List HTMLNode)
      (props : Props) (d : HTMLNode) :
      tag ≠ "" → voidTag tag = false → (∀ x, x ∈ pre → (ToHtml x).2 = none) →
      (ToHtml c).2 ≠ none → FailsAt c d →
      FailsAt (.parent (.mk tag (pre ++ c :: post) props)) d

/-! ## Lemmas on the string order and on sorting -/

theorem char_eq_of_toNat_eq (a b : Char) (h : a.toNat = b.toNat) : a = b := by
  apply Char.ext
  apply UInt32.ext
  exact h

theorem charsLess_iff : ∀ (a b : List Char), charsLess a b = true ↔ a < b
  | [], [] => by simp [charsLess]
  | _ :: _, [] => by simp [charsLess]
  | [], _ :: _ => by simpa [charsLess] using List.Lex.nil
  | a :: as, b :: bs => by
    have ih := charsLess_iff as bs
    unfold charsLess
    by_cases h1 : a.toNat < b.toNat
    · simp only [h1, if_true, true_iff]
      exact List.Lex.rel h1
    · by_cases h2 : b.toNat < a.toNat
      · simp only [h1, h2, if_true, if_false, Bool.false_eq_true, false_iff]
        intro h
        cases h with
        | cons _ => exact absurd h2 (Nat.lt_irrefl _)
        | rel h => exact h1 h
      · have hab : a = b := char_eq_of_toNat_eq a b (by omega)
        subst hab
        simp only [h1, if_false, ih]
        constructor
        · intro h
          exact List.Lex.cons h
        · intro h
          cases h with
          | cons h => exact h
          | rel h => exact absurd h h1

theorem stringLess_iff (a b : String) : stringLess a b = true ↔ a < b := by
  unfold stringLess
  rw [charsLess_iff, String.lt_iff_toList_lt]
  rfl

theorem notStringLess_iff (a b : String) : stringLess b a = false ↔ a ≤ b := by
  rw [← not_lt, ← stringLess_iff]
  simp


theorem join_cons (a : String) (l : List String) : String.join (a :: l) = a ++ String.join l := by
  apply String.ext
  simp [String.join_eq]

theorem notStringLess_total : IsTotal String (fun a b => stringLess b a = false) :=
  ⟨fun a b => by simp only [notStringLess_iff]; exact le_total a b⟩

theorem notStringLess_trans : IsTrans String (fun a b => stringLess b a = false) :=
  ⟨fun a b c => by simp only [notStringLess_iff]; exact le_trans⟩

theorem notStringLess_antisymm : IsAntisymm String (fun a b => stringLess b a = false) :=
  ⟨fun a b => by simp only [notStringLess_iff]; exact le_antisymm⟩

theorem sortStrings_eq (keys ks : List String) (hp : ks.Perm keys)
    (hs : ks.Sorted (fun a b => a < b)) : sortStrings keys = ks := by
  unfold sortStrings
  haveI := notStringLess_total
  haveI := notStringLess_trans
  haveI := notStringLess_antisymm
  apply @List.eq_of_perm_of_sorted _ (fun a b => stringLess b a = false)
  · exact (List.perm_insertionSort _ keys).trans hp.symm
  · exact List.sorted_insertionSort _ keys
  · exact hs.imp (fun h => (notStringLess_iff _ _).2 (le_of_lt h))

theorem index_of_mem : ∀ (m : GoMap) (k v : String), NodupKeys m → (k, v) ∈ m → m.index k = v
  | [], _, _, _, h => by simp at h
  | (k', v') :: m, k, v, hnd, h => by
    unfold NodupKeys at hnd
    simp only [List.map_cons, List.nodup_cons, List.mem_map, not_exists, not_and] at hnd
    unfold GoMap.index
    rcases List.mem_cons.1 h with h | h
    · cases h
      simp
    · have hne : k' ≠ k := by
        intro e
        subst e
        exact hnd.1 (k', v) h rfl
      simp only [hne, if_false]
      exact index_of_mem m k v hnd.2 h

theorem loop_eq (m : GoMap) : ∀ (keys : List String) (b : Builder),
    PropsToHTML.loop m keys b
      = (⟨b.buf ++ String.join (keys.map fun k => sprintfProp k (m.index k))⟩, none)
  | [], b => by simp [PropsToHTML.loop, String.join]
  | k :: keys, b => by
    simp only [PropsToHTML.loop, Builder.WriteString, List.map_cons, join_cons]
    rw [loop_eq m keys]
    simp [String.append_assoc]

theorem PropsToHTML_of_sorted (m l : GoMap) (hnd : NodupKeys m) (hp : l.Perm m)
    (hs : (l.map Prod.fst).Sorted (fun a b => a < b)) :
    (Props.mk m).PropsToHTML = (String.join (l.map fun kv => sprintfProp kv.1 kv.2), none) := by
  unfold Props.PropsToHTML
  by_cases h0 : m.length = 0
  · have hm : m = [] := List.length_eq_zero.1 h0
    subst hm
    have hl : l = [] := List.Perm.eq_nil hp
    subst hl
    simp [String.join]
  · simp only [h0, if_false]
    rw [sortStrings_eq (m.map Prod.fst) (l.map Prod.fst) (hp.map _) hs, loop_eq]
    simp only [Builder.String, List.map_map]
    have : (l.map ((fun k => sprintfProp k (m.index k)) ∘ Prod.fst))
        = l.map fun kv => sprintfProp kv.1 kv.2 := by
      apply List.map_congr_left
      intro kv hkv
      simp only [Function.comp]
      rw [index_of_mem m kv.1 kv.2 hnd (hp.subset hkv)]
    rw [this]
    simp

theorem exists_sorted_perm (m : GoMap) (hnd : NodupKeys m) :
    ∃ l : GoMap, l.Perm m ∧ (l.map Prod.fst).Sorted (fun a b => a < b) := by
  refine ⟨m.insertionSort (fun a b => a.1 ≤ b.1), List.perm_insertionSort _ m, ?_⟩
  have hs : (m.insertionSort (fun a b => a.1 ≤ b.1)).Sorted (fun a b => a.1 ≤ b.1) := by
    haveI : IsTotal (String × String) (fun a b => a.1 ≤ b.1) := ⟨fun a b => le_total a.1 b.1⟩
    haveI : IsTrans (String × String) (fun a b => a.1 ≤ b.1) := ⟨fun _ _ _ => le_trans⟩
    exact List.sorted_insertionSort _ m
  have hle : ((m.insertionSort (fun a b => a.1 ≤ b.1)).map Prod.fst).Sorted (fun a b => a ≤ b) :=
    List.pairwise_map.2 hs
  have hnd2 : ((m.insertionSort (fun a b => a.1 ≤ b.1)).map Prod.fst).Nodup :=
    (((List.perm_insertionSort _ m).map Prod.fst).nodup_iff).2 hnd
  exact hle.lt_of_le hnd2

theorem PropsToHTML_no_error (p : Props) : p.PropsToHTML.2 = none := by
  unfold Props.PropsToHTML
  by_cases h0 : p.props.length = 0
  · simp [h0]
  · simp only [h0, if_false]
    rw [loop_eq]

/-! ## The attribute set -/

/-- C1: for an attribute set with unique keys `PropsToHTML` returns no error,
and its text is the concatenation, over the pairs taken in ascending order of
their keys (such an arrangement exists), of a space, the key, an equals sign,
and the unchanged value between double quotes; for the empty mapping the text
is empty. -/
theorem PropsToHTML_sorted_concat (m : GoMap) (hnd : NodupKeys m) :
    (Props.mk m).PropsToHTML.2 = none ∧
    (∃ l : GoMap, l.Perm m ∧ (l.map Prod.fst).Sorted (fun a b => a < b)) ∧
    (∀ l : GoMap, l.Perm m → (l.map Prod.fst).Sorted (fun a b => a < b) →
      (Props.mk m).PropsToHTML.1
        = String.join (l.map fun kv => " " ++ kv.1 ++ "=\"" ++ kv.2 ++ "\"")) ∧
    (m = [] → (Props.mk m).PropsToHTML.1 = "") := by
  refine ⟨PropsToHTML_no_error _, exists_sorted_perm m hnd, ?_, ?_⟩
  · intro l hp hs
    rw [PropsToHTML_of_sorted m l hnd hp hs]
    rfl
  · intro hm
    subst hm
    rfl

/-- C1, at the attribute set of the test "multiple props", enumerated with
`href` before `class`: the text lists `class` first. -/
theorem PropsToHTML_sorted_concat_witness :
    NodupKeys [("href", "https://google.com"), ("class", "first")] ∧
    (Props.mk [("href", "https://google.com"), ("class", "first")]).PropsToHTML.1
      = " class=\"first\" href=\"https://google.com\"" :=
  ⟨by decide,
   (PropsToHTML_sorted_concat [("href", "https://google.com"), ("class", "first")]
      (by decide)).2.2.1
      [("class", "first"), ("href", "https://google.com")]
      (List.Perm.swap _ _ _)
      (by simp; decide)⟩

/-- C2: two enumerations of one attribute set with unique keys, that is two
lists of pairs that are permutations of one another, render to the same text
(and error). -/
theorem PropsToHTML_perm (m₁ m₂ : GoMap) (hnd : NodupKeys m₁) (hp : m₁.Perm m₂) :
    (Props.mk m₁).PropsToHTML = (Props.mk m₂).PropsToHTML := by
  obtain ⟨l, hl, hs⟩ := exists_sorted_perm m₁ hnd
  have hnd₂ : NodupKeys m₂ := ((hp.map Prod.fst).nodup_iff).1 hnd
  rw [PropsToHTML_of_sorted m₁ l hnd hl hs, PropsToHTML_of_sorted m₂ l hnd₂ (hl.trans hp) hs]

/-- C2, at the two enumerations of the attribute set of the test
"multiple props". -/
theorem PropsToHTML_perm_witness :
    NodupKeys [("class", "first"), ("href", "https://google.com")] ∧
    List.Perm [("class", "first"), ("href", "https://google.com")]
      [("href", "https://google.com"), ("class", "first")] ∧
    (Props.mk [("class", "first"), ("href", "https://google.com")]).PropsToHTML
      = (Props.mk [("href", "https://google.com"), ("class", "first")]).PropsToHTML :=
  ⟨by decide, List.Perm.swap _ _ _,
   PropsToHTML_perm _ _ (by decide) (List.Perm.swap _ _ _)⟩

/-! ## Leaf nodes -/

theorem voidTag_empty : voidTag "" = false := by decide

theorem toHtml_leaf (l : LeafNode) : ToHtml (.leaf l) = l.toHtml := by
  simp [ToHtml]

/-- C3: for every tag, so for every non-empty one, `NewLeafNode` returns the
missing-value error exactly when the tag is not void and the value is empty,
the unexpected-value error exactly when the tag is void and the value is
non-empty, and in every other case returns no error and the leaf made of its
three arguments. -/
theorem NewLeafNode_cases (tag value : String) (props : GoMap) :
    ((NewLeafNode tag value props).2 = Errorf "leaf node needs a value unless its self closing"
      ↔ (voidTag tag = false ∧ value = "")) ∧
    ((NewLeafNode tag value props).2 = Errorf "self closing tags shouldn't contain content"
      ↔ (voidTag tag = true ∧ value ≠ "")) ∧
    (¬ (voidTag tag = false ∧ value = "") → ¬ (voidTag tag = true ∧ value ≠ "") →
      NewLeafNode tag value props
        = ({ tag := tag, value := value, props := { props := props } }, none)) := by
  unfold NewLeafNode Errorf
  by_cases hv : value = "" <;> cases hvt : voidTag tag <;> simp [hv]

/-- C3, at the tags and values of the test of `NewLeafNode`: `p` without a
value, `img` with a value, and `p` with a value. -/
theorem NewLeafNode_cases_witness :
    (NewLeafNode "p" "" []).2 = Errorf "leaf node needs a value unless its self closing" ∧
    (NewLeafNode "img" "image" []).2 = Errorf "self closing tags shouldn't contain content" ∧
    NewLeafNode "p" "tag and value" []
      = ({ tag := "p", value := "tag and value", props := { props := [] } }, none) :=
  ⟨(NewLeafNode_cases "p" "" []).1.2 (by decide),
   (NewLeafNode_cases "img" "image" []).2.1.2 (by decide),
   (NewLeafNode_cases "p" "tag and value" []).2.2 (by decide) (by decide)⟩

/-- C4, as the code has it: with the empty tag `NewLeafNode` returns no error
and the tag-less leaf of its arguments for every non-empty value, and the
missing-value error with the zero leaf for the empty value. -/
theorem NewLeafNode_empty_tag (value : String) (props : GoMap) :
    NewLeafNode "" value props
      = if value = "" then
          (LeafNode.zero, Errorf "leaf node needs a value unless its self closing")
        else ({ tag := "", value := value, props := { props := props } }, none) := by
  unfold NewLeafNode
  by_cases hv : value = "" <;> simp [hv, voidTag_empty]

/-- C4 as stated fails: with the empty tag and the empty value `NewLeafNode`
returns the missing-value error, so it does not succeed for every value. -/
theorem NewLeafNode_empty_tag_empty_value_fails :
    (NewLeafNode "" "" []).2 = Errorf "leaf node needs a value unless its self closing" ∧
    ¬ (∀ (value : String) (props : GoMap), (NewLeafNode "" value props).2 = none) :=
  ⟨by decide, fun h => absurd (h "" []) (by decide)⟩

/-- C5: rendering a leaf returns an error if and only if its value is empty and
its tag is not void; the zero leaf fails to render. -/
theorem LeafNode_toHtml_error_iff (l : LeafNode) :
    ((ToHtml (.leaf l)).2 ≠ none ↔ (l.value = "" ∧ voidTag l.tag = false)) ∧
    (ToHtml (.leaf LeafNode.zero)).2 ≠ none := by
  constructor
  · rw [toHtml_leaf]
    unfold LeafNode.toHtml
    have hp := PropsToHTML_no_error l.props
    rcases hq : l.props.PropsToHTML with ⟨t, e⟩
    rw [hq] at hp
    simp only at hp
    subst hp
    by_cases hv : l.value = "" <;> cases hvt : voidTag l.tag <;>
      by_cases ht : l.tag = "" <;> simp [hv, hvt, ht, Errorf]
  · decide

/-- C6: a leaf with a non-empty, non-void tag and a non-empty value renders
without error to the opening tag with the attributes, the unchanged value and
the closing tag. -/
theorem LeafNode_toHtml_normal (l : LeafNode) (htag : l.tag ≠ "")
    (hvoid : voidTag l.tag = false) (hval : l.value ≠ "") :
    ToHtml (.leaf l)
      = ("<" ++ l.tag ++ l.props.PropsToHTML.1 ++ ">" ++ l.value ++ "</" ++ l.tag ++ ">",
         none) := by
  rw [toHtml_leaf]
  unfold LeafNode.toHtml
  have hp := PropsToHTML_no_error l.props
  rcases hq : l.props.PropsToHTML with ⟨t, e⟩
  rw [hq] at hp
  simp only at hp
  subst hp
  simp [htag, hvoid, hval]

/-- C6, at the leaf of the test "leaf with multiple props". -/
theorem LeafNode_toHtml_normal_witness :
    "p" ≠ "" ∧ voidTag "p" = false ∧ "i am a leaf node" ≠ "" ∧
    ToHtml (.leaf ⟨"p", "i am a leaf node", ⟨[("id", "leaf"), ("class", "node")]⟩⟩)
      = ("<p class=\"node\" id=\"leaf\">i am a leaf node</p>", none) :=
  ⟨by decide, by decide, by decide,
   LeafNode_toHtml_normal ⟨"p", "i am a leaf node", ⟨[("id", "leaf"), ("class", "node")]⟩⟩
     (by decide) (by decide) (by decide)⟩

/-- C7: a leaf with a void tag renders without error, whatever its value and
attributes, to the opening tag with the attributes followed by the value, with
no closing tag; when `NewLeafNode` returned the leaf without error the text is
the opening tag with the attributes alone. -/
theorem LeafNode_toHtml_void (tag value : String) (props : GoMap) (hvoid : voidTag tag = true) :
    ToHtml (.leaf ⟨tag, value, ⟨props⟩⟩)
      = ("<" ++ tag ++ (Props.mk props).PropsToHTML.1 ++ ">" ++ value, none) ∧
    ((NewLeafNode tag value props).2 = none →
      ToHtml (.leaf (NewLeafNode tag value props).1)
        = ("<" ++ tag ++ (Props.mk props).PropsToHTML.1 ++ ">", none)) := by
  have htag : tag ≠ "" := by
    intro h
    rw [h, voidTag_empty] at hvoid
    exact Bool.noConfusion hvoid
  have hp := PropsToHTML_no_error ⟨props⟩
  have key : ∀ v : String, ToHtml (.leaf ⟨tag, v, ⟨props⟩⟩)
      = ("<" ++ tag ++ (Props.mk props).PropsToHTML.1 ++ ">" ++ v, none) := by
    intro v
    rw [toHtml_leaf]
    unfold LeafNode.toHtml
    rcases hq : (Props.mk props).PropsToHTML with ⟨t, e⟩
    rw [hq] at hp
    simp only at hp
    subst hp
    simp [htag, hvoid]
  refine ⟨key value, ?_⟩
  unfold NewLeafNode
  by_cases hv : value = ""
  · subst hv
    intro _
    simp only [hvoid, ne_eq, not_true_eq_false, and_false, if_false, Bool.true_eq_false]
    rw [key ""]
    simp
  · simp [hv, hvoid, Errorf]

/-- C7, at the leaf of the test "leaf with self closing tag" and at an `img`
leaf that carries a value. -/
theorem LeafNode_toHtml_void_witness :
    voidTag "img" = true ∧
    ToHtml (.leaf ⟨"img", "x", ⟨[("src", "https://google.com"), ("alt", "image")]⟩⟩)
      = ("<img alt=\"image\" src=\"https://google.com\">x", none) ∧
    (NewLeafNode "img" "" [("src", "https://google.com"), ("alt", "image")]).2 = none ∧
    ToHtml (.leaf (NewLeafNode "img" "" [("src", "https://google.com"), ("alt", "image")]).1)
      = ("<img alt=\"image\" src=\"https://google.com\">", none) :=
  ⟨by decide,
   (LeafNode_toHtml_void "img" "x" [("src", "https://google.com"), ("alt", "image")]
     (by decide)).1,
   by decide,
   (LeafNode_toHtml_void "img" "" [("src", "https://google.com"), ("alt", "image")]
     (by decide)).2 (by decide)⟩

/-- C8: a leaf with the empty tag and a non-empty value renders without error
to exactly its value, whatever attributes it carries. -/
theorem LeafNode_toHtml_no_tag (l : LeafNode) (htag : l.tag = "") (hval : l.value ≠ "") :
    ToHtml (.leaf l) = (l.value, none) := by
  rw [toHtml_leaf]
  unfold LeafNode.toHtml
  simp [htag, hval]

/-- C8, at a tag-less leaf that carries an attribute. -/
theorem LeafNode_toHtml_no_tag_witness :
    ("" : String) = "" ∧ "no tags" ≠ "" ∧
    ToHtml (.leaf ⟨"", "no tags", ⟨[("id", "leaf")]⟩⟩) = ("no tags", none) :=
  ⟨rfl, by decide,
   LeafNode_toHtml_no_tag ⟨"", "no tags", ⟨[("id", "leaf")]⟩⟩ rfl (by decide)⟩

/-! ## Parent nodes -/

/-- C9: `NewParentNode` returns the invalid-tag error exactly when the tag is
empty or void, whatever the children; the no-children error exactly when the
tag is non-empty and not void and there are no children; and otherwise no
error and the parent made of its three arguments, the children unchanged. -/
theorem NewParentNode_cases (tag : String) (children : List HTMLNode) (props : GoMap) :
    ((NewParentNode tag children props).2
        = Errorf "parent must containg a tag that is not self closing"
      ↔ (tag = "" ∨ voidTag tag = true)) ∧
    ((NewParentNode tag children props).2 = Errorf "parent must contain children"
      ↔ (tag ≠ "" ∧ voidTag tag = false ∧ children = [])) ∧
    (tag ≠ "" → voidTag tag = false → children ≠ [] →
      NewParentNode tag children props = (.mk tag children { props := props }, none)) := by
  unfold NewParentNode Errorf
  by_cases ht : tag = "" <;> cases hvt : voidTag tag <;> cases children <;> simp [ht]

/-- C9, at the inputs of the test of `NewParentNode`, and at the empty tag
without children. -/
theorem NewParentNode_cases_witness :
    (NewParentNode "" [] []).2
      = Errorf "parent must containg a tag that is not self closing" ∧
    (NewParentNode "img" [.leaf ⟨"p", "i am leaf", ⟨[]⟩⟩] []).2
      = Errorf "parent must containg a tag that is not self closing" ∧
    (NewParentNode "div" [] []).2 = Errorf "parent must contain children" ∧
    NewParentNode "div" [.leaf ⟨"p", "i am leaf", ⟨[]⟩⟩] []
      = (.mk "div" [.leaf ⟨"p", "i am leaf", ⟨[]⟩⟩] { props := [] }, none) :=
  ⟨(NewParentNode_cases "" [] []).1.2 (Or.inl rfl),
   (NewParentNode_cases "img" [.leaf ⟨"p", "i am leaf", ⟨[]⟩⟩] []).1.2 (Or.inr (by decide)),
   (NewParentNode_cases "div" [] []).2.1.2 ⟨by decide, by decide, rfl⟩,
   (NewParentNode_cases "div" [.leaf ⟨"p", "i am leaf", ⟨[]⟩⟩] []).2.2
     (by decide) (by decide) (by simp)⟩

theorem toHtml_loop_ok : ∀ (children : List HTMLNode) (html : Builder),
    (∀ c ∈ children, (ToHtml c).2 = none) →
    ParentNode.toHtml.loop children html
      = (⟨html.buf ++ String.join (children.map fun c => (ToHtml c).1)⟩, none)
  | [], html, _ => by simp [ParentNode.toHtml.loop, String.join]
  | c :: cs, html, h => by
    have hc : (ToHtml c).2 = none := h c (List.mem_cons_self _ _)
    have hcs : ∀ d ∈ cs, (ToHtml d).2 = none := fun d hd => h d (List.mem_cons_of_mem _ hd)
    rw [ParentNode.toHtml.loop]
    rcases hq : ToHtml c with ⟨t, e⟩
    rw [hq] at hc
    simp only at hc
    subst hc
    simp only [Builder.WriteString, List.map_cons, join_cons, hq]
    rw [toHtml_loop_ok cs _ hcs]
    simp [String.append_assoc]

/-- C10: a parent with a non-empty, non-void tag and a non-empty sequence of
children that all render without error renders without error, to the opening
tag with the attributes, then the texts of the children in sequence order with
nothing between them, then the closing tag. -/
theorem ParentNode_toHtml_ok (tag : String) (children : List HTMLNode) (props : Props)
    (htag : tag ≠ "") (hvoid : voidTag tag = false) (hne : children ≠ [])
    (hok : ∀ c ∈ children, (ToHtml c).2 = none) :
    ToHtml (.parent (.mk tag children props))
      = ("<" ++ tag ++ props.PropsToHTML.1 ++ ">"
          ++ String.join (children.map fun c => (ToHtml c).1)
          ++ "</" ++ tag ++ ">", none) := by
  have hlen : children.length ≠ 0 := fun h => hne (List.length_eq_zero.1 h)
  have hp := PropsToHTML_no_error props
  rw [ToHtml, ParentNode.toHtml]
  rcases hq : props.PropsToHTML with ⟨t, e⟩
  rw [hq] at hp
  simp only at hp
  subst hp
  simp only [htag, hvoid, hlen, if_false, Bool.false_eq_true, Builder.WriteString]
  rw [toHtml_loop_ok children _ hok]
  simp [Builder.String, String.append_assoc]

/-- C10, at the parent of the test "parent with children": two tagged leaves
and a tag-less leaf under a `div`. -/
theorem ParentNode_toHtml_ok_witness :
    "div" ≠ "" ∧ voidTag "div" = false ∧
    ToHtml (.parent (.mk "div"
        [.leaf ⟨"p", "i am a leaf node", ⟨[]⟩⟩,
         .leaf ⟨"a", "i am a link", ⟨[("href", "https://google.com")]⟩⟩,
         .leaf ⟨"", "no tags", ⟨[]⟩⟩] ⟨[]⟩))
      = ("<div><p>i am a leaf node</p><a href=\"https://google.com\">i am a link</a>"
          ++ "no tags</div>", none) :=
  ⟨by decide, by decide,
   ParentNode_toHtml_ok "div"
     [.leaf ⟨"p", "i am a leaf node", ⟨[]⟩⟩,
      .leaf ⟨"a", "i am a link", ⟨[("href", "https://google.com")]⟩⟩,
      .leaf ⟨"", "no tags", ⟨[]⟩⟩] ⟨[]⟩
     (by decide) (by decide) (by simp)
     (by
       intro c hc
       simp only [List.mem_cons, List.mem_singleton, List.not_mem_nil, or_false] at hc
       rcases hc with h | h | h <;> subst h <;> decide)⟩

/-! ## Failures of rendering -/

theorem toHtml_parent (tag : String) (children : List HTMLNode) (props : Props)
    (htag : tag ≠ "") (hvoid : voidTag tag = false) (hne : children ≠ []) :
    ToHtml (.parent (.mk tag children props))
      = match ParentNode.toHtml.loop children ⟨"<" ++ tag ++ props.PropsToHTML.1 ++ ">"⟩ with
        | (_, some err) => ("", some err)
        | (html, none) => (html.buf ++ "</" ++ tag ++ ">", none) := by
  have hlen : children.length ≠ 0 := fun h => hne (List.length_eq_zero.1 h)
  have hp := PropsToHTML_no_error props
  rw [ToHtml, ParentNode.toHtml]
  rcases hq : props.PropsToHTML with ⟨t, e⟩
  rw [hq] at hp
  simp only at hp
  subst hp
  simp only [htag, hvoid, hlen, if_false, Bool.false_eq_true, Builder.WriteString,
    String.empty_append]
  rcases ParentNode.toHtml.loop children ⟨"<" ++ tag ++ t ++ ">"⟩ with ⟨html, e⟩
  cases e <;> simp [Builder.String, String.append_assoc]

theorem toHtml_loop_fail (c : HTMLNode) (post : List HTMLNode) :
    ∀ (pre : List HTMLNode) (html : Builder),
    (∀ x, x ∈ pre → (ToHtml x).2 = none) → (ToHtml c).2 ≠ none →
    (ParentNode.toHtml.loop (pre ++ c :: post) html).2 = (ToHtml c).2
  | [], html, _, hc => by
    rw [List.nil_append, ParentNode.toHtml.loop]
    rcases hq : ToHtml c with ⟨t, e⟩
    rw [hq] at hc
    cases e with
    | none => exact absurd rfl hc
    | some err => rfl
  | x :: pre, html, hpre, hc => by
    have hx : (ToHtml x).2 = none := hpre x (List.mem_cons_self _ _)
    have hrest : ∀ y, y ∈ pre → (ToHtml y).2 = none :=
      fun y hy => hpre y (List.mem_cons_of_mem _ hy)
    rw [List.cons_append, ParentNode.toHtml.loop]
    rcases hq : ToHtml x with ⟨t, e⟩
    rw [hq] at hx
    simp only at hx
    subst hx
    simp only [Builder.WriteString]
    exact toHtml_loop_fail c post pre _ hrest hc

theorem exists_first_failing : ∀ (cs : List HTMLNode),
    (∃ c, c ∈ cs ∧ (ToHtml c).2 ≠ none) →
    ∃ pre c post, cs = pre ++ c :: post ∧ (∀ x, x ∈ pre → (ToHtml x).2 = none) ∧
      (ToHtml c).2 ≠ none
  | [], h => by
    obtain ⟨c, hc, _⟩ := h
    simp at hc
  | x :: cs, h => by
    by_cases hx : (ToHtml x).2 = none
    · have h' : ∃ c, c ∈ cs ∧ (ToHtml c).2 ≠ none := by
        obtain ⟨c, hc, hf⟩ := h
        rcases List.mem_cons.1 hc with e | hm
        · subst e
          exact absurd hx hf
        · exact ⟨c, hm, hf⟩
      obtain ⟨pre, c, post, he, hpre, hc⟩ := exists_first_failing cs h'
      refine ⟨x :: pre, c, post, by rw [he, List.cons_append], ?_, hc⟩
      intro y hy
      rcases List.mem_cons.1 hy with e | hm
      · subst e
        exact hx
      · exact hpre y hm
    · exact ⟨[], x, cs, rfl, fun y hy => by simp at hy, hx⟩

theorem toHtml_parent_fail (tag : String) (pre : List HTMLNode) (c : HTMLNode)
    (post : List HTMLNode) (props : Props) (htag : tag ≠ "") (hvoid : voidTag tag = false)
    (hpre : ∀ x, x ∈ pre → (ToHtml x).2 = none) (hc : (ToHtml c).2 ≠ none) :
    ToHtml (.parent (.mk tag (pre ++ c :: post) props)) = ("", (ToHtml c).2) := by
  rw [toHtml_parent tag _ props htag hvoid (by simp)]
  have hl := toHtml_loop_fail c post pre ⟨"<" ++ tag ++ props.PropsToHTML.1 ++ ">"⟩ hpre hc
  rcases hq : ParentNode.toHtml.loop (pre ++ c :: post)
      ⟨"<" ++ tag ++ props.PropsToHTML.1 ++ ">"⟩ with ⟨html, e⟩
  rw [hq] at hl
  simp only at hl
  subst hl
  cases he : (ToHtml c).2 with
  | none => exact absurd he hc
  | some err => rfl

theorem failsAt_error (n d : HTMLNode) (h : FailsAt n d) : (ToHtml n).2 = (ToHtml d).2 := by
  induction h with
  | self n => rfl
  | child tag pre c post props d htag hvoid hpre hc _ ih =>
    rw [toHtml_parent_fail tag pre c post props htag hvoid hpre hc]
    exact ih

/-- C11: when a parent has a non-empty, non-void tag and some child fails to
render, its children split into children that render, the first child `c`
that fails, and the rest; for every such split the parent returns the empty
text and exactly the error of `c`, and that error is the error of the
descendant in which the failure of `c` arises. -/
theorem ParentNode_toHtml_child_error (tag : String) (children : List HTMLNode)
    (props : Props) (htag : tag ≠ "") (hvoid : voidTag tag = false)
    (hfail : ∃ c, c ∈ children ∧ (ToHtml c).2 ≠ none) :
    (∃ pre c post, children = pre ++ c :: post ∧ (∀ x, x ∈ pre → (ToHtml x).2 = none) ∧
      (ToHtml c).2 ≠ none) ∧
    (∀ pre c post, children = pre ++ c :: post → (∀ x, x ∈ pre → (ToHtml x).2 = none) →
      (ToHtml c).2 ≠ none →
      ToHtml (.parent (.mk tag children props)) = ("", (ToHtml c).2) ∧
      ∀ d, FailsAt c d → (ToHtml (.parent (.mk tag children props))).2 = (ToHtml d).2) := by
  refine ⟨exists_first_failing children hfail, ?_⟩
  intro pre c post he hpre hc
  subst he
  have key := toHtml_parent_fail tag pre c post props htag hvoid hpre hc
  refine ⟨key, ?_⟩
  intro d hd
  rw [key]
  exact failsAt_error c d hd

/-- C11, at a `div` whose first child renders, whose second child is a `div`
around the zero leaf, and whose third child is a `p` leaf without value: the
error is the one of the zero leaf. -/
theorem ParentNode_toHtml_child_error_witness :
    "div" ≠ "" ∧ voidTag "div" = false ∧
    ToHtml (.parent (.mk "div"
        [.leaf ⟨"p", "i am a leaf node", ⟨[]⟩⟩,
         .parent (.mk "div" [.leaf LeafNode.zero] ⟨[]⟩),
         .leaf ⟨"p", "", ⟨[]⟩⟩] ⟨[]⟩))
      = ("", Errorf "leaf node missing value") ∧
    (ToHtml (.parent (.mk "div"
        [.leaf ⟨"p", "i am a leaf node", ⟨[]⟩⟩,
         .parent (.mk "div" [.leaf LeafNode.zero] ⟨[]⟩),
         .leaf ⟨"p", "", ⟨[]⟩⟩] ⟨[]⟩))).2
      = (ToHtml (.leaf LeafNode.zero)).2 :=
  have h := (ParentNode_toHtml_child_error "div"
      [.leaf ⟨"p", "i am a leaf node", ⟨[]⟩⟩,
       .parent (.mk "div" [.leaf LeafNode.zero] ⟨[]⟩),
       .leaf ⟨"p", "", ⟨[]⟩⟩] ⟨[]⟩ (by decide) (by decide)
      ⟨.leaf ⟨"p", "", ⟨[]⟩⟩, by simp, by decide⟩).2
      [.leaf ⟨"p", "i am a leaf node", ⟨[]⟩⟩]
      (.parent (.mk "div" [.leaf LeafNode.zero] ⟨[]⟩))
      [.leaf ⟨"p", "", ⟨[]⟩⟩] rfl
      (by
        intro x hx
        rw [List.mem_singleton] at hx
        subst hx
        decide)
      (by decide)
  ⟨by decide, by decide, h.1,
   h.2 (.leaf LeafNode.zero)
     (FailsAt.child "div" [] (.leaf LeafNode.zero) [] ⟨[]⟩ (.leaf LeafNode.zero)
       (by decide) (by decide) (fun x hx => by simp at hx) (by decide)
       (FailsAt.self _))⟩

/-- C12: rendering a parent returns the missing-tag error when the tag is
empty; otherwise the void-tag error when the tag is void; otherwise the
no-children error when there are no children; and with a non-empty, non-void
tag and some child it returns no error when all children render, and
otherwise an error that is the error of one of its children.  The zero parent
returns the missing-tag error. -/
theorem ParentNode_toHtml_checks (tag : String) (children : List HTMLNode) (props : Props) :
    (tag = "" →
      ToHtml (.parent (.mk tag children props)) = ("", Errorf "parent node missing tag")) ∧
    (tag ≠ "" → voidTag tag = true →
      ToHtml (.parent (.mk tag children props))
        = ("", Errorf "parent node can't have a void tag")) ∧
    (tag ≠ "" → voidTag tag = false → children = [] →
      ToHtml (.parent (.mk tag children props))
        = ("", Errorf "parent node missing children")) ∧
    (tag ≠ "" → voidTag tag = false → children ≠ [] →
      ((∀ c, c ∈ children → (ToHtml c).2 = none) →
        (ToHtml (.parent (.mk tag children props))).2 = none) ∧
      ((ToHtml (.parent (.mk tag children props))).2 ≠ none →
        ∃ c, c ∈ children ∧ (ToHtml c).2 ≠ none ∧
          (ToHtml (.parent (.mk tag children props))).2 = (ToHtml c).2)) ∧
    ToHtml (.parent ParentNode.zero) = ("", Errorf "parent node missing tag") := by
  refine ⟨?_, ?_, ?_, ?_, by decide⟩
  · intro h
    rw [ToHtml, ParentNode.toHtml]
    simp [h]
  · intro h hv
    rw [ToHtml, ParentNode.toHtml]
    simp [h, hv]
  · intro h hv hc
    rw [ToHtml, ParentNode.toHtml]
    simp [h, hv, hc]
  · intro h hv hc
    have hok : (∀ c, c ∈ children → (ToHtml c).2 = none) →
        (ToHtml (.parent (.mk tag children props))).2 = none := by
      intro hall
      rw [toHtml_parent tag children props h hv hc, toHtml_loop_ok children _ hall]
    refine ⟨hok, ?_⟩
    intro herr
    have hex : ∃ c, c ∈ children ∧ (ToHtml c).2 ≠ none := by
      by_contra hno
      apply herr
      apply hok
      intro c hc'
      by_contra hcf
      exact hno ⟨c, hc', hcf⟩
    obtain ⟨pre, c, post, he, hpre, hcf⟩ := exists_first_failing children hex
    subst he
    refine ⟨c, by simp, hcf, ?_⟩
    rw [toHtml_parent_fail tag pre c post props h hv hpre hcf]

/-- C12, at the parents of the test of rendering: without tag, with the void
tag `img`, and `div` without children. -/
theorem ParentNode_toHtml_checks_witness :
    ToHtml (.parent (.mk "" [] ⟨[]⟩)) = ("", Errorf "parent node missing tag") ∧
    ToHtml (.parent (.mk "img" [] ⟨[]⟩)) = ("", Errorf "parent node can't have a void tag") ∧
    ToHtml (.parent (.mk "div" [] ⟨[]⟩)) = ("", Errorf "parent node missing children") ∧
    (ToHtml (.parent (.mk "div" [.leaf ⟨"", "no tags", ⟨[]⟩⟩] ⟨[]⟩))).2 = none :=
  ⟨(ParentNode_toHtml_checks "" [] ⟨[]⟩).1 rfl,
   (ParentNode_toHtml_checks "img" [] ⟨[]⟩).2.1 (by decide) (by decide),
   (ParentNode_toHtml_checks "div" [] ⟨[]⟩).2.2.1 (by decide) (by decide) rfl,
   ((ParentNode_toHtml_checks "div" [.leaf ⟨"", "no tags", ⟨[]⟩⟩] ⟨[]⟩).2.2.2.1
      (by decide) (by decide) (by simp)).1
      (by
        intro c hc
        rw [List.mem_singleton] at hc
        subst hc
        decide)⟩

/-- C13: whenever `ToHtml` returns an error, for a leaf or a parent of any
depth, the text it returns is empty. -/
theorem ToHtml_error_text_empty (n : HTMLNode) (h : (ToHtml n).2 ≠ none) :
    (ToHtml n).1 = "" := by
  cases n with
  | leaf l =>
    rw [toHtml_leaf] at h ⊢
    unfold LeafNode.toHtml at h ⊢
    have hp := PropsToHTML_no_error l.props
    rcases hq : l.props.PropsToHTML with ⟨t, e⟩
    rw [hq] at hp h
    simp only at hp
    subst hp
    by_cases h1 : l.value = "" ∧ voidTag l.tag = false
    · simp [h1]
    · exfalso
      apply h
      by_cases h2 : l.tag = "" <;> cases h3 : voidTag l.tag <;> simp_all
  | parent p =>
    cases p with
    | mk tag children props =>
      by_cases h1 : tag = ""
      · rw [ToHtml, ParentNode.toHtml]
        simp [h1]
      · cases h2 : voidTag tag with
        | true =>
          rw [ToHtml, ParentNode.toHtml]
          simp [h1, h2]
        | false =>
          by_cases h3 : children = []
          · rw [ToHtml, ParentNode.toHtml]
            simp [h1, h2, h3]
          · rw [toHtml_parent tag children props h1 h2 h3] at h ⊢
            generalize ParentNode.toHtml.loop children
                ⟨"<" ++ tag ++ props.PropsToHTML.1 ++ ">"⟩ = r at h ⊢
            rcases r with ⟨html, e⟩
            cases e with
            | none => exact absurd rfl h
            | some err => rfl

/-- C13, at the parent of the C11 example: its second child fails after the
first has rendered, and the text returned is empty. -/
theorem ToHtml_error_text_empty_witness :
    (ToHtml (.parent (.mk "div"
        [.leaf ⟨"p", "i am a leaf node", ⟨[]⟩⟩,
         .parent (.mk "div" [.leaf LeafNode.zero] ⟨[]⟩)] ⟨[]⟩))).2 ≠ none ∧
    (ToHtml (.parent (.mk "div"
        [.leaf ⟨"p", "i am a leaf node", ⟨[]⟩⟩,
         .parent (.mk "div" [.leaf LeafNode.zero] ⟨[]⟩)] ⟨[]⟩))).1 = "" :=
  ⟨by decide, ToHtml_error_text_empty _ (by decide)⟩

/-! ## The void-tag test -/

/-- C14: `voidTag` returns true exactly for the sixteen names of its table,
compared as they are written; it is false for the empty string and for the
upper-case spelling `IMG`. -/
theorem voidTag_iff (tag : String) :
    (voidTag tag = true ↔
      tag ∈ ["area", "base", "br", "col", "command", "embed", "hr", "img", "input", "keygen",
             "link", "meta", "param", "source", "track", "wbr"]) ∧
    (voidTag tag = false ↔
      tag ∉ ["area", "base", "br", "col", "command", "embed", "hr", "img", "input", "keygen",
             "link", "meta", "param", "source", "track", "wbr"]) ∧
    VOID_TAGS.length = 16 ∧ voidTag "" = false ∧ voidTag "IMG" = false ∧
    voidTag "img" = true := by
  have loop_iff : ∀ ts : List String, voidTag.loop tag ts = true ↔ tag ∈ ts := by
    intro ts
    induction ts with
    | nil => simp [voidTag.loop]
    | cons t ts ih =>
      by_cases h : tag = t
      · simp [voidTag.loop, h]
      · simp [voidTag.loop, h, ih]
  have h1 : voidTag tag = true ↔
      tag ∈ ["area", "base", "br", "col", "command", "embed", "hr", "img", "input", "keygen",
             "link", "meta", "param", "source", "track", "wbr"] := loop_iff VOID_TAGS
  refine ⟨h1, ?_, rfl, by decide, by decide, by decide⟩
  rw [← h1]
  cases voidTag tag <;> simp

/-! ## Constructors and rendering -/

theorem leaf_toHtml_ok (l : LeafNode) (h : ¬ (l.value = "" ∧ voidTag l.tag = false)) :
    l.toHtml.2 = none := by
  unfold LeafNode.toHtml
  have hp := PropsToHTML_no_error l.props
  rcases hq : l.props.PropsToHTML with ⟨t, e⟩
  rw [hq] at hp
  simp only at hp
  subst hp
  by_cases h2 : l.tag = "" <;> cases h3 : voidTag l.tag <;> simp_all

theorem newLeafNode_ok (tag value : String) (props : GoMap) (l : LeafNode)
    (h : NewLeafNode tag value props = (l, none)) :
    l = ⟨tag, value, ⟨props⟩⟩ ∧ ¬ (value = "" ∧ voidTag tag = false) := by
  unfold NewLeafNode Errorf at h
  by_cases h1 : value = "" ∧ voidTag tag = false
  · simp [h1] at h
  · by_cases h2 : voidTag tag = true ∧ value ≠ ""
    · rw [if_neg h1, if_pos h2] at h
      simp at h
    · rw [if_neg h1, if_neg h2] at h
      exact ⟨(Prod.mk.inj h).1.symm, h1⟩

theorem newParentNode_ok (tag : String) (children : List HTMLNode) (props : GoMap)
    (p : ParentNode) (h : NewParentNode tag children props = (p, none)) :
    p = .mk tag children ⟨props⟩ ∧ tag ≠ "" ∧ voidTag tag = false ∧ children ≠ [] := by
  unfold NewParentNode Errorf at h
  by_cases h1 : tag = "" ∨ voidTag tag = true
  · simp [h1] at h
  · by_cases h2 : children.length = 0
    · rw [if_neg h1, if_pos h2] at h
      simp at h
    · rw [if_neg h1, if_neg h2] at h
      refine ⟨(Prod.mk.inj h).1.symm, fun e => h1 (Or.inl e), ?_,
        fun e => h2 (by rw [e]; rfl)⟩
      cases hv : voidTag tag with
      | false => rfl
      | true => exact absurd (Or.inr hv) h1

/-- C15: when `NewLeafNode` or `NewParentNode` returns an error, the node
returned with it is the zero node (empty tag, empty value or no children, no
attributes); rendering that node returns an error and the empty text, and
its description is `LeafNode(, , map[])`, respectively
`ParentNode(, [], map[])`. -/
theorem constructor_error_zero (tag value : String) (children : List HTMLNode)
    (props : GoMap) :
    ((NewLeafNode tag value props).2 ≠ none →
      (NewLeafNode tag value props).1 = ⟨"", "", ⟨[]⟩⟩ ∧
      (ToHtml (.leaf (NewLeafNode tag value props).1)).2 ≠ none ∧
      (ToHtml (.leaf (NewLeafNode tag value props).1)).1 = "" ∧
      (NewLeafNode tag value props).1.String = "LeafNode(, , map[])") ∧
    ((NewParentNode tag children props).2 ≠ none →
      (NewParentNode tag children props).1 = .mk "" [] ⟨[]⟩ ∧
      (ToHtml (.parent (NewParentNode tag children props).1)).2 ≠ none ∧
      (ToHtml (.parent (NewParentNode tag children props).1)).1 = "" ∧
      ParentNode.String (NewParentNode tag children props).1 = "ParentNode(, [], map[])") := by
  constructor
  · intro h
    have hz : (NewLeafNode tag value props).1 = LeafNode.zero := by
      unfold NewLeafNode at h ⊢
      by_cases h1 : value = "" ∧ voidTag tag = false
      · rw [if_pos h1]
      · by_cases h2 : voidTag tag = true ∧ value ≠ ""
        · rw [if_neg h1, if_pos h2]
        · rw [if_neg h1, if_neg h2] at h
          exact absurd rfl h
    rw [hz]
    exact ⟨rfl, by decide, by decide, by decide⟩
  · intro h
    have hz : (NewParentNode tag children props).1 = ParentNode.zero := by
      unfold NewParentNode at h ⊢
      by_cases h1 : tag = "" ∨ voidTag tag = true
      · rw [if_pos h1]
      · by_cases h2 : children.length = 0
        · rw [if_neg h1, if_pos h2]
        · rw [if_neg h1, if_neg h2] at h
          exact absurd rfl h
    rw [hz]
    exact ⟨rfl, by decide, by decide, by decide⟩

/-- C15, at the rejected constructions of the tests: a `p` leaf without value,
an `img` leaf with a value, a parent without tag and a `div` without
children. -/
theorem constructor_error_zero_witness :
    (NewLeafNode "p" "" []).2 ≠ none ∧
    (NewLeafNode "p" "" []).1 = ⟨"", "", ⟨[]⟩⟩ ∧
    (NewLeafNode "img" "image" [("alt", "image")]).1.String = "LeafNode(, , map[])" ∧
    (NewParentNode "" [.leaf ⟨"a", "i am a link", ⟨[]⟩⟩] []).1 = .mk "" [] ⟨[]⟩ ∧
    ParentNode.String (NewParentNode "div" [] [("id", "prop")]).1
      = "ParentNode(, [], map[])" :=
  ⟨by decide,
   ((constructor_error_zero "p" "" [] []).1 (by decide)).1,
   ((constructor_error_zero "img" "image" [] [("alt", "image")]).1 (by decide)).2.2.2,
   ((constructor_error_zero "" "" [.leaf ⟨"a", "i am a link", ⟨[]⟩⟩] []).2 (by decide)).1,
   ((constructor_error_zero "div" "" [] [("id", "prop")]).2 (by decide)).2.2.2⟩

/-! ## Descriptions -/

theorem sprintMap_of_sorted (m l : GoMap) (hnd : NodupKeys m) (hp : l.Perm m)
    (hs : (l.map Prod.fst).Sorted (fun a b => a < b)) :
    sprintMap m = "map[" ++ " ".intercalate (l.map fun kv => kv.1 ++ ":" ++ kv.2) ++ "]" := by
  unfold sprintMap
  rw [sortStrings_eq (m.map Prod.fst) (l.map Prod.fst) (hp.map _) hs, List.map_map]
  have : (l.map ((fun k => k ++ ":" ++ m.index k) ∘ Prod.fst))
      = l.map fun kv => kv.1 ++ ":" ++ kv.2 := by
    apply List.map_congr_left
    intro kv hkv
    simp only [Function.comp]
    rw [index_of_mem m kv.1 kv.2 hnd (hp.subset hkv)]
  rw [this]

theorem sprintNodes_eq : ∀ cs : List HTMLNode, sprintNodes cs = cs.map HTMLNode.String
  | [] => by simp [sprintNodes]
  | c :: cs => by
    rw [sprintNodes, sprintNodes_eq cs]
    rfl

/-- C16: the description of a leaf with unique attribute keys is `LeafNode(`,
the tag, a comma and a space, the value, a comma and a space, the attribute
mapping and `)`, where the mapping is `map[`, the pairs as key, colon, value
in ascending key order (such an arrangement exists) separated by single
spaces, and `]`; for the empty mapping it is `map[]`. -/
theorem LeafNode_String_eq (l : LeafNode) (hnd : NodupKeys l.props.props) :
    (∃ m : GoMap, m.Perm l.props.props ∧ (m.map Prod.fst).Sorted (fun a b => a < b)) ∧
    (∀ m : GoMap, m.Perm l.props.props → (m.map Prod.fst).Sorted (fun a b => a < b) →
      l.String = "LeafNode(" ++ l.tag ++ ", " ++ l.value ++ ", "
        ++ ("map[" ++ " ".intercalate (m.map fun kv => kv.1 ++ ":" ++ kv.2) ++ "]") ++ ")") ∧
    (l.props.props = [] →
      l.String = "LeafNode(" ++ l.tag ++ ", " ++ l.value ++ ", " ++ "map[]" ++ ")") := by
  refine ⟨exists_sorted_perm _ hnd, ?_, ?_⟩
  · intro m hp hs
    unfold LeafNode.String
    rw [sprintMap_of_sorted l.props.props m hnd hp hs]
  · intro he
    unfold LeafNode.String
    rw [he]
    rfl

/-- C16, at the leaf of the test "leaf with multiple props", its attributes
enumerated with `id` first. -/
theorem LeafNode_String_eq_witness :
    NodupKeys [("id", "leaf"), ("class", "node")] ∧
    (LeafNode.mk "p" "i am a leaf node" ⟨[("id", "leaf"), ("class", "node")]⟩).String
      = "LeafNode(p, i am a leaf node, map[class:node id:leaf])" :=
  ⟨by decide,
   (LeafNode_String_eq ⟨"p", "i am a leaf node", ⟨[("id", "leaf"), ("class", "node")]⟩⟩
      (by decide)).2.1
      [("class", "node"), ("id", "leaf")]
      (List.Perm.swap _ _ _)
      (by simp; decide)⟩

/-- C17: the description of a parent with unique attribute keys is
`ParentNode(`, the tag, a comma and a space, the descriptions of its children
in sequence order separated by single spaces between `[` and `]`, a comma and
a space, the attribute mapping in the form `map[k:v ...]` with ascending keys,
and `)`; the description of a child is the one of the leaf or of the parent it
is, so it recurses through nested parents; for the zero parent it is
`ParentNode(, [], map[])`. -/
theorem ParentNode_String_eq (tag : String) (children : List HTMLNode) (props : Props)
    (hnd : NodupKeys props.props) :
    (∃ m : GoMap, m.Perm props.props ∧ (m.map Prod.fst).Sorted (fun a b => a < b)) ∧
    (∀ m : GoMap, m.Perm props.props → (m.map Prod.fst).Sorted (fun a b => a < b) →
      ParentNode.String (.mk tag children props)
        = "ParentNode(" ++ tag ++ ", "
          ++ ("[" ++ " ".intercalate (children.map HTMLNode.String) ++ "]") ++ ", "
          ++ ("map[" ++ " ".intercalate (m.map fun kv => kv.1 ++ ":" ++ kv.2) ++ "]")
          ++ ")") ∧
    (∀ l : LeafNode, HTMLNode.String (.leaf l) = l.String) ∧
    (∀ p : ParentNode, HTMLNode.String (.parent p) = ParentNode.String p) ∧
    ParentNode.String ParentNode.zero = "ParentNode(, [], map[])" := by
  refine ⟨exists_sorted_perm _ hnd, ?_, ?_, ?_, by decide⟩
  · intro m hp hs
    rw [ParentNode.String, sprintNodes_eq, sprintMap_of_sorted props.props m hnd hp hs]
  · intro l
    rw [HTMLNode.String]
  · intro p
    rw [HTMLNode.String]

/-- C17, at a `div` with attributes around a leaf and a nested `div`, in the
manner of the tests "parent with grandchild" and "parent with multiple
props". -/
theorem ParentNode_String_eq_witness :
    NodupKeys [("id", "prop"), ("class", "parent")] ∧
    ParentNode.String (.mk "div"
        [.leaf ⟨"", "no tags", ⟨[]⟩⟩,
         .parent (.mk "div" [.leaf ⟨"p", "i am a leaf node", ⟨[]⟩⟩] ⟨[]⟩)]
        ⟨[("id", "prop"), ("class", "parent")]⟩)
      = "ParentNode(div, [LeafNode(, no tags, map[]) "
        ++ "ParentNode(div, [LeafNode(p, i am a leaf node, map[])], map[])], "
        ++ "map[class:parent id:prop])" :=
  ⟨by decide,
   (ParentNode_String_eq "div"
      [.leaf ⟨"", "no tags", ⟨[]⟩⟩,
       .parent (.mk "div" [.leaf ⟨"p", "i am a leaf node", ⟨[]⟩⟩] ⟨[]⟩)]
      ⟨[("id", "prop"), ("class", "parent")]⟩ (by decide)).2.1
      [("class", "parent"), ("id", "prop")]
      (List.Perm.swap _ _ _)
      (by simp; decide)⟩

/-! ## Trees made by the constructors -/

/-- C18: a tree every node of which was returned without error by
`NewLeafNode` or `NewParentNode` renders without error. -/
theorem Built_toHtml_ok (n : HTMLNode) (h : Built n) : (ToHtml n).2 = none := by
  induction h with
  | leaf tag value props l hl =>
    obtain ⟨e, hv⟩ := newLeafNode_ok tag value props l hl
    subst e
    rw [toHtml_leaf]
    exact leaf_toHtml_ok _ hv
  | parent tag children props p _ hp ih =>
    obtain ⟨e, htag, hvoid, hne⟩ := newParentNode_ok tag children props p hp
    subst e
    rw [toHtml_parent tag children _ htag hvoid hne, toHtml_loop_ok children _ ih]

/-- C18, at the tree of the test "parent with grandchild": a `div` around a
`div` around a `p` leaf, each made by its constructor. -/
theorem Built_toHtml_ok_witness :
    Built (.parent (.mk "div"
      [.parent (.mk "div" [.leaf ⟨"p", "i am a leaf node", ⟨[]⟩⟩] ⟨[]⟩)] ⟨[]⟩)) ∧
    (ToHtml (.parent (.mk "div"
      [.parent (.mk "div" [.leaf ⟨"p", "i am a leaf node", ⟨[]⟩⟩] ⟨[]⟩)] ⟨[]⟩))).2 = none :=
  have hleaf : Built (.leaf ⟨"p", "i am a leaf node", ⟨[]⟩⟩) :=
    Built.leaf "p" "i am a leaf node" [] _ (by decide)
  have hchild : Built (.parent (.mk "div" [.leaf ⟨"p", "i am a leaf node", ⟨[]⟩⟩] ⟨[]⟩)) :=
    Built.parent "div" [.leaf ⟨"p", "i am a leaf node", ⟨[]⟩⟩] [] _
      (by
        intro c hc
        rw [List.mem_singleton] at hc
        subst hc
        exact hleaf)
      (by simp [NewParentNode, voidTag, voidTag.loop, VOID_TAGS])
  have hroot : Built (.parent (.mk "div"
      [.parent (.mk "div" [.leaf ⟨"p", "i am a leaf node", ⟨[]⟩⟩] ⟨[]⟩)] ⟨[]⟩)) :=
    Built.parent "div"
      [.parent (.mk "div" [.leaf ⟨"p", "i am a leaf node", ⟨[]⟩⟩] ⟨[]⟩)] [] _
      (by
        intro c hc
        rw [List.mem_singleton] at hc
        subst hc
        exact hchild)
      (by simp [NewParentNode, voidTag, voidTag.loop, VOID_TAGS])
  ⟨hroot, Built_toHtml_ok _ hroot⟩

/-- C19: rendering is not injective on constructor-made nodes.  The tag-less
leaf with value `<p>x</p>` and the `p` leaf with value `x` are both accepted
by `NewLeafNode`, differ, and both render to `<p>x</p>`; likewise an `a` leaf
whose single attribute value contains a double quote renders as the `a` leaf
with two attributes. -/
theorem ToHtml_not_injective :
    NewLeafNode "" "<p>x</p>" [] = (⟨"", "<p>x</p>", ⟨[]⟩⟩, none) ∧
    NewLeafNode "p" "x" [] = (⟨"p", "x", ⟨[]⟩⟩, none) ∧
    HTMLNode.leaf ⟨"", "<p>x</p>", ⟨[]⟩⟩ ≠ HTMLNode.leaf ⟨"p", "x", ⟨[]⟩⟩ ∧
    ToHtml (.leaf ⟨"", "<p>x</p>", ⟨[]⟩⟩) = ("<p>x</p>", none) ∧
    ToHtml (.leaf ⟨"p", "x", ⟨[]⟩⟩) = ("<p>x</p>", none) ∧
    NewLeafNode "a" "t" [("href", "x\" id=\"y")]
      = (⟨"a", "t", ⟨[("href", "x\" id=\"y")]⟩⟩, none) ∧
    NewLeafNode "a" "t" [("href", "x"), ("id", "y")]
      = (⟨"a", "t", ⟨[("href", "x"), ("id", "y")]⟩⟩, none) ∧
    ToHtml (.leaf ⟨"a", "t", ⟨[("href", "x\" id=\"y")]⟩⟩)
      = ToHtml (.leaf ⟨"a", "t", ⟨[("href", "x"), ("id", "y")]⟩⟩) ∧
    ¬ (∀ a b : HTMLNode, Built a → Built b → ToHtml a = ToHtml b → a = b) := by
  have hne : HTMLNode.leaf ⟨"", "<p>x</p>", ⟨[]⟩⟩ ≠ HTMLNode.leaf ⟨"p", "x", ⟨[]⟩⟩ := by
    intro h
    have h' : (⟨"", "<p>x</p>", ⟨[]⟩⟩ : LeafNode) = ⟨"p", "x", ⟨[]⟩⟩ := HTMLNode.leaf.inj h
    exact absurd h' (by decide)
  refine ⟨by decide, by decide, hne, by decide, by decide, by decide, by decide, by decide, ?_⟩
  intro hinj
  exact hne (hinj _ _ (Built.leaf "" "<p>x</p>" [] _ (by decide))
    (Built.leaf "p" "x" [] _ (by decide)) (by decide))

end Html
